import Mathlib

/-!
Shallow embedding of the windowed-aggregation pipeline of
src/opendc-analyze/src/main/python/models/MultiModel.py.

Numeric cell values of the host tables are modelled as rationals,
timestamps as integers.  Fallible Python code (a raise that escapes the
function) is modelled with Except: an error value names the Python
exception that would be raised.
-/

/-- Python exceptions that can escape the modelled functions.  Each
constructor names one concrete raise site: invalidMetric is the explicit
ValueError raised in check_and_set_metric (line 52), invalidMetricOutputFolder
is the explicit ValueError raised in set_output_folder (line 82),
rangeStepZero is the ValueError raised by the builtin range when its step
argument is zero (reached from mean_of_chunks, line 177), and maxEmpty is
the ValueError raised by the builtin max on an empty sequence (reached
from get_y_lim, line 187). -/
inductive PyErr where
  | invalidMetric
  | invalidMetricOutputFolder
  | rangeStepZero
  | maxEmpty
deriving DecidableEq

deriving instance DecidableEq for Except

/-- Model of numpy.mean on a list of numbers: the sum divided by the
length.  In the embedding it is only ever applied to non-empty chunks. -/
def npMean (l : List ℚ) : ℚ := l.sum / l.length

/-- Model of MultiModel.mean_of_chunks (line 176-177):

  return [np.mean(np_array[i:i + window_size]) for i in range(0, len(np_array), window_size)]

Translation of the pieces, for a Python int window_size:
* range(0, len, 0) raises ValueError (step must not be zero);
* range(0, len, step) with step < 0 is empty because len >= 0, so the
  comprehension yields the empty list;
* range(0, len, w) with w > 0 enumerates i = k*w for k < ceil(len/w),
  and np_array[i:i+w] is drop i followed by take w. -/
def mean_of_chunks (np_array : List ℚ) (window_size : Int) : Except PyErr (List ℚ) :=
  if window_size = 0 then
    .error .rangeStepZero
  else if window_size < 0 then
    .ok []
  else
    .ok ((List.range ((np_array.length + window_size.toNat - 1) / window_size.toNat)).map
      (fun k => npMean ((np_array.drop (k * window_size.toNat)).take window_size.toNat)))

/-- Partition of a list into contiguous, non-overlapping chunks of w
elements, the last chunk holding the remainder.  This is the
specification-side description of the windowed reduction, to be compared
with mean_of_chunks. -/
def chunksOf (w : Nat) : List ℚ → List (List ℚ)
  | [] => []
  | x :: xs =>
    if _hw : w = 0 then []
    else (x :: xs).take w :: chunksOf w ((x :: xs).drop w)
termination_by l => l.length
decreasing_by simp [List.length_drop]; omega

/-- Model of MultiModel.check_and_set_metric (lines 50-54): reject any
metric string other than power_draw and carbon_emission with the explicit
ValueError, otherwise return the metric together with the measure unit
(W for power_draw, gCO2 otherwise, i.e. for carbon_emission). -/
def check_and_set_metric (input_metric : String) : Except PyErr (String × String) :=
  if input_metric ∉ (["power_draw", "carbon_emission"] : List String) then
    .error .invalidMetric
  else
    .ok (input_metric, if input_metric = "power_draw" then "W" else "gCO2")

/-- One host table, modelled as the list of its rows in file order.  A row
carries the timestamp column and the value of the chosen metric column;
the remaining columns (host id and other non-numeric columns) are dropped
by select_dtypes before grouping and never reach the aggregation, so they
are not part of the model. -/
abbrev HostRows := List (Int × ℚ)

/-- Model of the aggregation step of MultiModel.init_models (lines 102-103):

  host.select_dtypes(include=[np.number]).groupby("timestamp")[metric].aggregate("sum")

pandas groupby with the default sort=True lists the distinct timestamp
keys in ascending order and maps each to the sum of the metric column
over the rows sharing that timestamp. -/
def init_models_aggregate (rows : HostRows) : List (Int × ℚ) :=
  (((rows.map Prod.fst).dedup).insertionSort (· ≤ ·)).map
    (fun t => (t, ((rows.filter (fun r => r.1 = t)).map Prod.snd).sum))

/-- Model of the builtin max over a list of numbers: ValueError on an
empty sequence, otherwise the greatest element. -/
def pyMax (l : List ℚ) : Except PyErr ℚ :=
  match l with
  | [] => .error .maxEmpty
  | x :: xs => .ok (xs.foldl max x)

/-- Model of MultiModel.get_y_lim (lines 186-187):

  return max([max(model) for model in self.computed_data]) * 1.1

The inner comprehension evaluates max on every reduced series first (so
an empty series raises there), then the outer max runs on the list of
per-series maxima (so an empty collection raises there), and the result
is scaled by 1.1 = 11/10. -/
def get_y_lim (computed_data : List (List ℚ)) : Except PyErr ℚ := do
  let maxes ← computed_data.mapM pyMax
  let m ← pyMax maxes
  pure (m * (11 / 10 : ℚ))

/-- File-system side effects performed during MultiModel construction. -/
inductive IOEvent where
  | openAnalysisFile (folder : String)
  | readHostParquet (path : String)
deriving DecidableEq

/-- Model of MultiModel.set_output_folder (lines 67-82): for a valid
metric, record the output folder constant from utils and the side effect
of opening (append mode) the analysis.txt file in that folder; any other
metric raises the second explicit ValueError.  The utils path constants
are not part of the repository sources, so they are kept as opaque
strings. -/
def set_output_folder (metric : String) : Except PyErr (String × IOEvent) :=
  if metric = "power_draw" then
    .ok ("ENERGY_ANALYSIS_FOLDER_PATH", .openAnalysisFile "ENERGY_ANALYSIS_FOLDER_NAME")
  else if metric = "carbon_emission" then
    .ok ("EMISSIONS_ANALYSIS_FOLDER_PATH", .openAnalysisFile "EMISSIONS_ANALYSIS_FOLDER_NAME")
  else
    .error .invalidMetricOutputFolder

/-- The attributes of a fully constructed MultiModel object that the
model tracks (lines 25-41). -/
structure MultiModelState where
  metric : String
  measure_unit : String
  window_size : Int
  aggregation_function : String
  output_folder : String
  raw_models : List (String × HostRows)
  aggregated_models : List (List (Int × ℚ))
  computed_data : List (List ℚ)
deriving DecidableEq

/-- Model of MultiModel.__init__ (lines 23-41).  The simulation output
directory is passed in as runs: the list of simulation folder names in
os.listdir discovery order, each with the rows of its host.parquet table.
The result is the constructed state (or the Python exception that escapes
the constructor) together with the ordered trace of file-system events
performed before returning or raising.

Construction order follows the source: check_and_set_metric first (a bad
metric raises before any file is touched), then set_output_folder (which
opens the analysis file), then init_models (which reads one parquet file
per run folder and aggregates it), then compute_windowed_aggregation
(lines 114-121), which applies mean_of_chunks to the values of each
aggregated series.  Line 32 sets the aggregation_function attribute to
the literal "median", ignoring the constructor argument. -/
def multiModel_init (input_metric : String) (window_size : Int)
    (_aggregation_function : String) (runs : List (String × HostRows)) :
    Except PyErr MultiModelState × List IOEvent :=
  match check_and_set_metric input_metric with
  | .error e => (.error e, [])
  | .ok (metric, unit) =>
    match set_output_folder metric with
    | .error e => (.error e, [])
    | .ok (folder, ev) =>
      let parquetReads := runs.map
        (fun r => IOEvent.readHostParquet ("./raw-output/" ++ r.1 ++ "/seed=0/host.parquet"))
      let aggregated := runs.map (fun r => init_models_aggregate r.2)
      let trace := ev :: parquetReads
      match aggregated.mapM (fun m => mean_of_chunks (m.map Prod.snd) window_size) with
      | .error e => (.error e, trace)
      | .ok computed =>
        (.ok { metric := metric
               measure_unit := unit
               window_size := window_size
               aggregation_function := "median"
               output_folder := folder
               raw_models := runs
               aggregated_models := aggregated
               computed_data := computed }, trace)

/-!  Theorems. -/

/-- Claim C4: metric resolution returns exactly the paired unit for the
two valid metric strings (power_draw to W, carbon_emission to gCO2) and
fails with the explicit invalid-metric ValueError for every other string;
the comparison is plain string equality, hence case-sensitive and without
trimming. -/
theorem check_and_set_metric_resolves (m : String) (h1 : m ≠ "power_draw")
    (h2 : m ≠ "carbon_emission") :
    check_and_set_metric "power_draw" = .ok ("power_draw", "W") ∧
    check_and_set_metric "carbon_emission" = .ok ("carbon_emission", "gCO2") ∧
    check_and_set_metric m = .error .invalidMetric := by
  refine ⟨by decide, by decide, ?_⟩
  simp [check_and_set_metric, h1, h2]

/-- Witness for C4 at the concrete invalid metric strings temperature and
Power_draw (wrong case). -/
theorem check_and_set_metric_resolves_witness :
    check_and_set_metric "power_draw" = .ok ("power_draw", "W") ∧
    check_and_set_metric "carbon_emission" = .ok ("carbon_emission", "gCO2") ∧
    check_and_set_metric "temperature" = .error .invalidMetric :=
  check_and_set_metric_resolves "temperature" (by decide) (by decide)

/-- Counterexample for C3 as stated: at the concrete input series [1] and
window_size = -1 (which is <= 0), mean_of_chunks returns a result, the
empty list, instead of failing: range(0, 1, -1) is empty, so the
comprehension silently yields [].  There is no window-size validation
anywhere in the source. -/
theorem mean_of_chunks_negative_counterexample :
    mean_of_chunks [(1 : ℚ)] (-1) = .ok [] := by decide

/-- Claim C3 as amended: for window_size = 0 the reduction fails with the
ValueError raised by the builtin range (step must not be zero), an
uncontrolled crash rather than a dedicated InvalidWindowSize failure, and
for window_size < 0 it does not fail at all: it returns the empty series,
whatever the input series. -/
theorem mean_of_chunks_nonpositive (s : List ℚ) :
    mean_of_chunks s 0 = .error .rangeStepZero ∧
    ∀ w : Int, w < 0 → mean_of_chunks s w = .ok [] := by
  constructor
  · simp [mean_of_chunks]
  · intro w hw
    simp [mean_of_chunks, hw, ne_of_lt hw]

/-- Witness for the amended C3 at the concrete series [1, 2] and the
window sizes 0 and -2. -/
theorem mean_of_chunks_nonpositive_witness :
    mean_of_chunks [(1 : ℚ), 2] 0 = .error .rangeStepZero ∧
    mean_of_chunks [(1 : ℚ), 2] (-2) = .ok [] :=
  ⟨(mean_of_chunks_nonpositive [1, 2]).1,
   (mean_of_chunks_nonpositive [1, 2]).2 (-2) (by decide)⟩

/-- Claim C1: for every series and every positive window size the reduced
series exists (no failure) and has length ceil(len / window_size); in
particular it is empty when the series is empty. -/
theorem mean_of_chunks_length (s : List ℚ) (w : Int) (hw : 0 < w) :
    ∃ r, mean_of_chunks s w = .ok r ∧
      r.length = s.length ⌈/⌉ w.toNat ∧ (s = [] → r = []) := by
  have hw0 : w ≠ 0 := ne_of_gt hw
  have hwneg : ¬w < 0 := not_lt.mpr hw.le
  refine ⟨(List.range ((s.length + w.toNat - 1) / w.toNat)).map
      (fun k => npMean ((s.drop (k * w.toNat)).take w.toNat)), ?_, ?_, ?_⟩
  · simp [mean_of_chunks, hw0, hwneg]
  · simp [Nat.ceilDiv_eq_add_pred_div]
  · intro hs
    subst hs
    have h0 : (w.toNat - 1) / w.toNat = 0 := Nat.div_eq_of_lt (by omega)
    simp [h0]

/-- Witness for C1 at the concrete series [1, 2, 3] and window size 2
(the reduced series has ceil(3/2) = 2 elements). -/
theorem mean_of_chunks_length_witness :
    ∃ r, mean_of_chunks [(1 : ℚ), 2, 3] 2 = .ok r ∧
      r.length = [(1 : ℚ), 2, 3].length ⌈/⌉ (2 : Int).toNat ∧
      ([(1 : ℚ), 2, 3] = [] → r = []) :=
  mean_of_chunks_length [1, 2, 3] 2 (by decide)

/-- Unfolding lemma for chunksOf on a non-empty list and non-zero width. -/
theorem chunksOf_cons_eq (w : Nat) (hw : w ≠ 0) (l : List ℚ) (hl : l ≠ []) :
    chunksOf w l = l.take w :: chunksOf w (l.drop w) := by
  cases l with
  | nil => exact absurd rfl hl
  | cons x xs => rw [chunksOf]; simp [hw]

/-- The chunk count of the windowed comprehension steps down by one when
the first window is removed. -/
theorem chunk_count_succ (w : Nat) (hw : 0 < w) (x : ℚ) (xs : List ℚ) :
    ((x :: xs).length + w - 1) / w = (((x :: xs).drop w).length + w - 1) / w + 1 := by
  simp only [List.length_cons, List.length_drop]
  rcases le_or_lt (xs.length + 1) w with hle | hlt
  · have e1 : xs.length + 1 + w - 1 = xs.length + w := by omega
    have e2 : xs.length + 1 - w = 0 := by omega
    rw [e1, e2, Nat.add_div_right _ hw]
    have e3 : xs.length / w = 0 := Nat.div_eq_of_lt (by omega)
    have e4 : (0 + w - 1) / w = 0 := Nat.div_eq_of_lt (by omega)
    rw [e3, e4]
  · have e1 : xs.length + 1 + w - 1 = xs.length + w := by omega
    have e2 : xs.length + 1 - w + w - 1 = (xs.length - w) + w := by omega
    rw [e1, e2, Nat.add_div_right _ hw, Nat.add_div_right _ hw]
    have hwle : w ≤ xs.length := by omega
    have e4 : xs.length / w = (xs.length - w) / w + 1 := by
      conv_lhs => rw [← Nat.sub_add_cancel hwle]
      rw [Nat.add_div_right _ hw]
    rw [e4]

/-- The windowed comprehension of mean_of_chunks enumerates exactly the
chunks of the partition chunksOf. -/
theorem range_map_eq_chunksOf (w : Nat) (hw : 0 < w) :
    ∀ n (s : List ℚ), s.length ≤ n →
      (List.range ((s.length + w - 1) / w)).map (fun k => (s.drop (k * w)).take w) =
        chunksOf w s := by
  intro n
  induction n with
  | zero =>
    intro s hs
    have hnil : s = [] := List.eq_nil_of_length_eq_zero (by omega)
    subst hnil
    simp [chunksOf, Nat.div_eq_of_lt (show w - 1 < w by omega)]
  | succ n ih =>
    intro s hs
    cases s with
    | nil => simp [chunksOf, Nat.div_eq_of_lt (show w - 1 < w by omega)]
    | cons x xs =>
      rw [chunk_count_succ w hw x xs, List.range_succ_eq_map,
        chunksOf_cons_eq w (by omega) _ (by simp)]
      simp only [List.map_cons, List.map_map]
      have hlen : ((x :: xs).drop w).length ≤ n := by
        simp at hs ⊢
        omega
      congr 1
      · simp
      · rw [← ih ((x :: xs).drop w) hlen]
        apply List.map_congr_left
        intro k _
        simp only [Function.comp_apply, List.drop_drop]
        have : Nat.succ k * w = w + k * w := by
          rw [Nat.succ_mul]; omega
        rw [this]

/-- chunksOf really is a partition: concatenating the chunks gives the
original list back. -/
theorem chunksOf_flatten (w : Nat) (hw : 0 < w) :
    ∀ n (s : List ℚ), s.length ≤ n → (chunksOf w s).flatten = s := by
  intro n
  induction n with
  | zero =>
    intro s hs
    have hnil : s = [] := List.eq_nil_of_length_eq_zero (by omega)
    subst hnil
    simp [chunksOf]
  | succ n ih =>
    intro s hs
    cases s with
    | nil => simp [chunksOf]
    | cons x xs =>
      rw [chunksOf_cons_eq w (by omega) _ (by simp)]
      have hlen : ((x :: xs).drop w).length ≤ n := by
        simp at hs ⊢
        omega
      simp only [List.flatten_cons, ih ((x :: xs).drop w) hlen]
      exact List.take_append_drop w (x :: xs)

/-- Every chunk of chunksOf is non-empty and no longer than the window. -/
theorem chunksOf_length_bounds (w : Nat) (hw : 0 < w) :
    ∀ n (s : List ℚ), s.length ≤ n → ∀ c ∈ chunksOf w s, 1 ≤ c.length ∧ c.length ≤ w := by
  intro n
  induction n with
  | zero =>
    intro s hs
    have hnil : s = [] := List.eq_nil_of_length_eq_zero (by omega)
    subst hnil
    simp [chunksOf]
  | succ n ih =>
    intro s hs
    cases s with
    | nil => simp [chunksOf]
    | cons x xs =>
      rw [chunksOf_cons_eq w (by omega) _ (by simp)]
      intro c hc
      rcases List.mem_cons.mp hc with h1 | h1
      · subst h1
        constructor
        · simp
          omega
        · simp
      · have hlen : ((x :: xs).drop w).length ≤ n := by
          simp at hs ⊢
          omega
        exact ih ((x :: xs).drop w) hlen c h1

/-- Every chunk except possibly the last has exactly the window size. -/
theorem chunksOf_full_chunks (w : Nat) (hw : 0 < w) :
    ∀ n (s : List ℚ), s.length ≤ n → ∀ i, i + 1 < (chunksOf w s).length →
      ((chunksOf w s).getD i []).length = w := by
  intro n
  induction n with
  | zero =>
    intro s hs
    have hnil : s = [] := List.eq_nil_of_length_eq_zero (by omega)
    subst hnil
    simp [chunksOf]
  | succ n ih =>
    intro s hs
    cases s with
    | nil => simp [chunksOf]
    | cons x xs =>
      rw [chunksOf_cons_eq w (by omega) _ (by simp)]
      intro i hi
      have hlen : ((x :: xs).drop w).length ≤ n := by
        simp at hs ⊢
        omega
      cases i with
      | zero =>
        have hne : chunksOf w ((x :: xs).drop w) ≠ [] := by
          intro h0
          rw [h0] at hi
          simp at hi
        have hdrop : (x :: xs).drop w ≠ [] := by
          intro h0
          rw [h0] at hne
          simp [chunksOf] at hne
        have hwlen : w < (x :: xs).length := by
          by_contra hcon
          exact hdrop (List.drop_eq_nil_of_le (by omega))
        have htake : ((x :: xs).take w).length = w := by
          rw [List.length_take]
          exact Nat.min_eq_left (le_of_lt hwlen)
        simpa [htake]
      | succ j =>
        have hj : j + 1 < (chunksOf w ((x :: xs).drop w)).length := by
          simp at hi
          omega
        simpa using ih ((x :: xs).drop w) hlen j hj

/-- Claim C2: for every series and positive window size, mean_of_chunks
equals the arithmetic mean npMean mapped over the partition chunksOf of
the series into contiguous non-overlapping chunks; that partition
concatenates back to the series, every chunk is non-empty and at most
window_size long, and every chunk except possibly the last is exactly
window_size long.  The final conjunct separates mean from median on a
concrete window: the computed reduction of [0, 0, 3] with window 3 is
[1], the mean, where the median of that window would have been 0. -/
theorem mean_of_chunks_chunk_means (s : List ℚ) (w : Int) (hw : 0 < w) :
    mean_of_chunks s w = .ok ((chunksOf w.toNat s).map npMean) ∧
    (chunksOf w.toNat s).flatten = s ∧
    (∀ c ∈ chunksOf w.toNat s, 1 ≤ c.length ∧ c.length ≤ w.toNat) ∧
    (∀ i, i + 1 < (chunksOf w.toNat s).length →
      ((chunksOf w.toNat s).getD i []).length = w.toNat) ∧
    mean_of_chunks [0, 0, 3] 3 = .ok [1] := by
  have hwn : 0 < w.toNat := by omega
  have hw0 : w ≠ 0 := ne_of_gt hw
  have hwneg : ¬w < 0 := not_lt.mpr hw.le
  refine ⟨?_, chunksOf_flatten w.toNat hwn s.length s le_rfl,
    chunksOf_length_bounds w.toNat hwn s.length s le_rfl,
    chunksOf_full_chunks w.toNat hwn s.length s le_rfl, ?_⟩
  · have hbridge := range_map_eq_chunksOf w.toNat hwn s.length s le_rfl
    simp only [mean_of_chunks, if_neg hw0, if_neg hwneg]
    congr 1
    rw [← hbridge, List.map_map]
    rfl
  · simp [mean_of_chunks, npMean, List.range_succ]

/-- Witness for C2 at the concrete series [1, 2, 3, 4, 5] with window
size 2, instantiating the chunk-shape conjuncts at the last chunk [5]
and at index 0. -/
theorem mean_of_chunks_chunk_means_witness :
    mean_of_chunks [(1 : ℚ), 2, 3, 4, 5] 2 =
      .ok ((chunksOf (2 : Int).toNat [(1 : ℚ), 2, 3, 4, 5]).map npMean) ∧
    (chunksOf (2 : Int).toNat [(1 : ℚ), 2, 3, 4, 5]).flatten = [(1 : ℚ), 2, 3, 4, 5] ∧
    (1 ≤ ([(5 : ℚ)] : List ℚ).length ∧ ([(5 : ℚ)] : List ℚ).length ≤ (2 : Int).toNat) ∧
    ((chunksOf (2 : Int).toNat [(1 : ℚ), 2, 3, 4, 5]).getD 0 []).length = (2 : Int).toNat ∧
    mean_of_chunks [0, 0, 3] 3 = .ok [1] := by
  obtain ⟨h1, h2, h3, h4, h5⟩ := mean_of_chunks_chunk_means [(1 : ℚ), 2, 3, 4, 5] 2 (by decide)
  exact ⟨h1, h2, h3 [(5 : ℚ)] (by simp [chunksOf]), h4 0 (by simp [chunksOf]), h5⟩

/-- Claim C5: the per-run aggregation lists timestamps in strictly
increasing order with exactly one aggregated value per distinct
timestamp; the value at every position is the sum of the metric column
over all rows sharing that timestamp, and the timestamps appearing are
exactly those of the input table. -/
theorem init_models_aggregate_spec (rows : HostRows) :
    ((init_models_aggregate rows).map Prod.fst).Sorted (· < ·) ∧
    (∀ i, i < (init_models_aggregate rows).length →
      ((init_models_aggregate rows).getD i (0, 0)).2 =
        ((rows.filter (fun r => r.1 = ((init_models_aggregate rows).getD i (0, 0)).1)).map
          Prod.snd).sum) ∧
    (∀ t : Int, t ∈ (init_models_aggregate rows).map Prod.fst ↔ t ∈ rows.map Prod.fst) := by
  have hkeys : (init_models_aggregate rows).map Prod.fst =
      ((rows.map Prod.fst).dedup).insertionSort (· ≤ ·) := by
    simp [init_models_aggregate, List.map_map, Function.comp_def]
  have hsorted : (((rows.map Prod.fst).dedup).insertionSort (· ≤ ·)).Sorted (· ≤ ·) :=
    List.sorted_insertionSort _ _
  have hnodup : (((rows.map Prod.fst).dedup).insertionSort (· ≤ ·)).Nodup :=
    (List.perm_insertionSort _ _).nodup_iff.mpr (List.nodup_dedup _)
  refine ⟨?_, ?_, ?_⟩
  · rw [hkeys]
    exact hsorted.lt_of_le hnodup
  · intro i hi
    have hlen : i < (((rows.map Prod.fst).dedup).insertionSort (· ≤ ·)).length := by
      simpa [init_models_aggregate] using hi
    unfold init_models_aggregate
    rw [List.getD_eq_getElem _ _ (by simpa [init_models_aggregate] using hi)]
    simp [List.getElem_map]
  · intro t
    rw [hkeys]
    constructor
    · intro ht
      have := (List.perm_insertionSort (· ≤ ·) ((rows.map Prod.fst).dedup)).mem_iff.mp ht
      exact List.mem_dedup.mp this
    · intro ht
      exact (List.perm_insertionSort (· ≤ ·) ((rows.map Prod.fst).dedup)).mem_iff.mpr
        (List.mem_dedup.mpr ht)

/-- Witness for C5 at the concrete host table with rows (1, 2), (0, 3),
(1, 4): the sum conjunct is instantiated at index 0 and the
timestamp-presence conjunct at timestamp 0. -/
theorem init_models_aggregate_spec_witness :
    ((init_models_aggregate [((1 : Int), (2 : ℚ)), (0, 3), (1, 4)]).map Prod.fst).Sorted
      (· < ·) ∧
    ((init_models_aggregate [((1 : Int), (2 : ℚ)), (0, 3), (1, 4)]).getD 0 (0, 0)).2 =
      (([((1 : Int), (2 : ℚ)), (0, 3), (1, 4)].filter
        (fun r => r.1 =
          ((init_models_aggregate [((1 : Int), (2 : ℚ)), (0, 3), (1, 4)]).getD 0 (0, 0)).1)).map
        Prod.snd).sum ∧
    ((0 : Int) ∈ (init_models_aggregate [((1 : Int), (2 : ℚ)), (0, 3), (1, 4)]).map Prod.fst ↔
      (0 : Int) ∈ [((1 : Int), (2 : ℚ)), (0, 3), (1, 4)].map Prod.fst) := by
  obtain ⟨h1, h2, h3⟩ := init_models_aggregate_spec [((1 : Int), (2 : ℚ)), (0, 3), (1, 4)]
  exact ⟨h1, h2 0 (by decide), h3 0⟩

/-- Claim C8: the per-run aggregation is invariant under any permutation
of the rows of the host table: the per-timestamp cross-host sums and
their ascending order do not depend on row order. -/
theorem init_models_aggregate_perm (r₁ r₂ : HostRows) (h : r₁.Perm r₂) :
    init_models_aggregate r₁ = init_models_aggregate r₂ := by
  have hkeys : ((r₁.map Prod.fst).dedup).insertionSort (· ≤ ·) =
      ((r₂.map Prod.fst).dedup).insertionSort (· ≤ ·) :=
    List.eq_of_perm_of_sorted
      ((List.perm_insertionSort _ _).trans
        (((h.map Prod.fst).dedup).trans (List.perm_insertionSort _ _).symm))
      (List.sorted_insertionSort _ _) (List.sorted_insertionSort _ _)
  unfold init_models_aggregate
  rw [hkeys]
  apply List.map_congr_left
  intro t _
  have hsum : ((r₁.filter (fun r => r.1 = t)).map Prod.snd).sum =
      ((r₂.filter (fun r => r.1 = t)).map Prod.snd).sum :=
    ((h.filter _).map _).sum_eq
  rw [hsum]

/-- Witness for C8 at the concrete two-row tables [(1, 2), (0, 3)] and
[(0, 3), (1, 2)], one a transposition of the other. -/
theorem init_models_aggregate_perm_witness :
    init_models_aggregate [((1 : Int), (2 : ℚ)), (0, 3)] =
      init_models_aggregate [((0 : Int), (3 : ℚ)), (1, 2)] :=
  init_models_aggregate_perm _ _ (by decide)

/-- The folded maximum is one of the candidates. -/
theorem foldl_max_mem (x : ℚ) (xs : List ℚ) : xs.foldl max x ∈ x :: xs := by
  induction xs generalizing x with
  | nil => simp
  | cons y ys ih =>
    simp only [List.foldl_cons]
    rcases List.mem_cons.mp (ih (max x y)) with h1 | h1
    · rcases max_choice x y with h2 | h2 <;> rw [h1, h2] <;> simp
    · simp [h1]

/-- The folded maximum bounds every candidate from above. -/
theorem le_foldl_max (x : ℚ) (xs : List ℚ) : ∀ y ∈ x :: xs, y ≤ xs.foldl max x := by
  induction xs generalizing x with
  | nil =>
    intro y hy
    simp only [List.foldl_nil]
    simp at hy
    exact le_of_eq hy
  | cons z zs ih =>
    intro y hy
    simp only [List.foldl_cons]
    rcases List.mem_cons.mp hy with h1 | h1
    · rw [h1]
      exact le_trans (le_max_left x z) (ih (max x z) (max x z) (by simp))
    · rcases List.mem_cons.mp h1 with h2 | h2
      · rw [h2]
        exact le_trans (le_max_right x z) (ih (max x z) (max x z) (by simp))
      · exact ih (max x z) y (by simp [h2])

/-- The builtin max on a non-empty list succeeds and returns the greatest
element. -/
theorem pyMax_spec (l : List ℚ) (hl : l ≠ []) :
    ∃ M, pyMax l = .ok M ∧ M ∈ l ∧ ∀ y ∈ l, y ≤ M := by
  cases l with
  | nil => exact absurd rfl hl
  | cons x xs => exact ⟨xs.foldl max x, rfl, foldl_max_mem x xs, le_foldl_max x xs⟩

/-- The inner comprehension of get_y_lim: when every series is non-empty,
mapping the builtin max over them succeeds and produces one maximum per
series, jointly covering and bounding the flattened data. -/
theorem mapM_pyMax_spec (d : List (List ℚ)) (h : ∀ s ∈ d, s ≠ []) :
    ∃ maxes, d.mapM pyMax = .ok maxes ∧ maxes.length = d.length ∧
      (∀ y ∈ maxes, y ∈ d.flatten) ∧ (∀ x ∈ d.flatten, ∃ y ∈ maxes, x ≤ y) := by
  induction d with
  | nil => exact ⟨[], rfl, rfl, by simp, by simp⟩
  | cons s ds ih =>
    obtain ⟨M, hM, hMmem, hMle⟩ := pyMax_spec s (h s (by simp))
    obtain ⟨maxes, hmaxes, hlen, hmem, hle⟩ := ih (fun t ht => h t (by simp [ht]))
    refine ⟨M :: maxes, ?_, by simp [hlen], ?_, ?_⟩
    · rw [List.mapM_cons, hM, hmaxes]
      rfl
    · intro y hy
      rcases List.mem_cons.mp hy with h1 | h1
      · subst h1
        simp only [List.flatten_cons, List.mem_append]
        exact Or.inl hMmem
      · simp only [List.flatten_cons, List.mem_append]
        exact Or.inr (hmem y h1)
    · intro x hx
      have hx2 : x ∈ s ∨ x ∈ ds.flatten := by simpa using hx
      rcases hx2 with h1 | h1
      · exact ⟨M, by simp, hMle x h1⟩
      · obtain ⟨y, hy1, hy2⟩ := hle x h1
        exact ⟨y, by simp [hy1], hy2⟩

/-- Claim C6: for a non-empty collection of non-empty reduced series
whose overall maximum window-mean is m, get_y_lim returns exactly
m * 1.1 (1.1 = 11/10 as an exact rational). -/
theorem get_y_lim_exact (d : List (List ℚ)) (m : ℚ) (hne : d ≠ [])
    (hall : ∀ s ∈ d, s ≠ []) (hmem : m ∈ d.flatten)
    (hmax : ∀ x ∈ d.flatten, x ≤ m) :
    get_y_lim d = .ok (m * (11 / 10)) := by
  obtain ⟨maxes, hmaxes, hlen, hmem2, hle2⟩ := mapM_pyMax_spec d hall
  have hmne : maxes ≠ [] := by
    intro h0
    apply hne
    have : d.length = 0 := by rw [← hlen, h0]; rfl
    exact List.eq_nil_of_length_eq_zero this
  obtain ⟨M, hM, hMmem, hMle⟩ := pyMax_spec maxes hmne
  have hMm : M = m := by
    apply le_antisymm (hmax M (hmem2 M hMmem))
    obtain ⟨y, hy1, hy2⟩ := hle2 m hmem
    exact le_trans hy2 (hMle y hy1)
  simp only [get_y_lim]
  rw [hmaxes]
  simp only [Bind.bind, Except.bind]
  rw [hM]
  simp [Pure.pure, Except.pure, hMm]

/-- Witness for C6 at the concrete dataset [[1, 2], [3]] with overall
maximum 3: the bound is 3 * 11/10. -/
theorem get_y_lim_exact_witness :
    get_y_lim [[(1 : ℚ), 2], [3]] = .ok ((3 : ℚ) * (11 / 10)) :=
  get_y_lim_exact [[(1 : ℚ), 2], [3]] 3 (by decide) (by decide) (by decide) (by decide)

/-- Counterexample for C7 as stated: at the concrete all-empty input
[[]], get_y_lim fails with the ValueError raised by the builtin max on an
empty sequence — an uncontrolled untyped crash propagating out of the
list comprehension.  Lines 186-187 contain no emptiness check, so no
dedicated EmptyDataset failure exists. -/
theorem get_y_lim_empty_counterexample :
    get_y_lim [([] : List ℚ)] = .error .maxEmpty := by
  simp [get_y_lim, List.mapM.loop, pyMax, Bind.bind, Except.bind, Pure.pure, Except.pure]

/-- Claim C7 as amended: on every all-empty collection of reduced series
(including the empty collection itself) get_y_lim fails with the builtin
max ValueError on an empty sequence; it does not silently return 0, but
the failure is the untyped builtin exception rather than a dedicated
EmptyDataset error. -/
theorem get_y_lim_all_empty (d : List (List ℚ)) (h : ∀ s ∈ d, s = []) :
    get_y_lim d = .error .maxEmpty := by
  cases d with
  | nil =>
    simp [get_y_lim, List.mapM.loop, pyMax, Bind.bind, Except.bind, Pure.pure, Except.pure]
  | cons s ds =>
    have hs : s = [] := h s (by simp)
    subst hs
    simp [get_y_lim, List.mapM.loop, pyMax, Bind.bind, Except.bind, Pure.pure, Except.pure]

/-- Witness for the amended C7 at the concrete all-empty collection
[[], []]. -/
theorem get_y_lim_all_empty_witness :
    get_y_lim [([] : List ℚ), []] = .error .maxEmpty :=
  get_y_lim_all_empty [[], []] (by decide)

/-- Claim C9: for every invalid metric string, MultiModel construction
fails with the explicit invalid-metric ValueError raised by
check_and_set_metric before any file-system access (no analysis-file
open, no parquet read: the event trace is empty) and produces no state. -/
theorem multiModel_init_invalid_metric (m : String) (w : Int) (a : String)
    (runs : List (String × HostRows)) (h1 : m ≠ "power_draw")
    (h2 : m ≠ "carbon_emission") :
    multiModel_init m w a runs = (.error .invalidMetric, []) := by
  simp [multiModel_init, check_and_set_metric, h1, h2]

/-- Witness for C9 at the concrete metric temperature, with one run
folder present that must not be read. -/
theorem multiModel_init_invalid_metric_witness :
    multiModel_init "temperature" 5 "median" [("run1", [(0, 4)])] =
      (.error .invalidMetric, []) :=
  multiModel_init_invalid_metric "temperature" 5 "median" [("run1", [(0, 4)])]
    (by decide) (by decide)

/-- Claim C10: the aggregation_function constructor argument never
influences construction: two constructions differing only in that
argument have identical results (state, computed reduced series and event
trace), and whenever construction succeeds the stored
aggregation_function attribute is the literal median, which line 32
assigns unconditionally while the computation always applies the mean. -/
theorem multiModel_init_ignores_aggregation_function (m : String) (w : Int)
    (a₁ a₂ : String) (runs : List (String × HostRows)) :
    multiModel_init m w a₁ runs = multiModel_init m w a₂ runs ∧
    (multiModel_init m w a₁ runs).1.map MultiModelState.aggregation_function =
      (multiModel_init m w a₁ runs).1.map (fun _ => "median") := by
  refine ⟨rfl, ?_⟩
  unfold multiModel_init
  rcases hc : check_and_set_metric m with e | p
  · simp [hc, Except.map]
  · rcases p with ⟨metric, unit⟩
    rcases hs : set_output_folder metric with e | q
    · simp [hc, hs, Except.map]
    · rcases q with ⟨folder, ev⟩
      rcases hm : List.mapM.loop (fun l => mean_of_chunks (List.map Prod.snd l) w)
          (List.map (fun r => init_models_aggregate r.2) runs) [] with e | computed
      · simp [hc, hs, hm, Except.map]
      · simp [hc, hs, hm, Except.map]
